import Mathlib

/-!
Shallow embedding of the TUID generator (`src/index.ts`), a TypeScript class
that generates, validates and parses timestamp-based unique identifiers of the
textual form `timestamp-machineId-sequence-random1-random2`.

Identifier text is modelled as `List Char` (a JS string is a sequence of
characters; none of the strings involved leave the BMP, so one `Char` per JS
code unit is exact).  JS numbers appearing as clock readings, timestamps and
sequence counters are integers in every reachable state, so they are modelled
as `Int`/`Nat`; the one place where non-integral numbers matter (the
constructor's range check, which receives an arbitrary caller-supplied JS
number) is modelled over a dedicated type `JSNum` of finite doubles-as-
rationals plus NaN.
-/

/-- Character class `\d` of the validation regex (and of `Char.isDigit`):
decimal digits `0`–`9`. -/
def isDigitCh (c : Char) : Bool := c.isDigit

/-- Character class `[a-z0-9]` of the validation regex: lowercase latin
letters and decimal digits. -/
def isLowerAlnum (c : Char) : Bool := c.isDigit || c.isLower

/-- Decimal digit characters of a natural number, most significant first, no
leading zeros (`natToChars 0 = ['0']`).  This is exactly how a JS template
literal renders a non-negative integral number.  `Nat.toDigits 10` is the
decimal digit-list function of the Lean core library. -/
def natToChars (n : Nat) : List Char := Nat.toDigits 10 n

/-- Rendering of an integral JS number by a template literal: decimal digits,
preceded by `-` when negative. -/
def intToChars (i : Int) : List Char :=
  if i < 0 then '-' :: natToChars i.natAbs else natToChars i.natAbs

/-- Model of `x.toString(36).substring(2, 6)` as a function of the string
`x.toString(36)`: JS `substring(2, 6)` takes the characters at indices 2–5,
fewer when the string is shorter.  For a double `x` with `0 ≤ x < 1` the
string `x.toString(36)` is `"0"` (for `x = 0`) or `"0."` followed by the
base-36 fraction digits of `x` (lowercase, no trailing zero), so dropping two
characters skips the `0.` prefix and `take 4` keeps at most the first four
fraction digits. -/
def randSegment (s : List Char) : List Char := (s.drop 2).take 4

/-- Composition step of `generateV1`: the template literal
`${timestamp}-${machineId}-${sequence}-${randomString1}-${randomString2}`. -/
def tuidString (timestamp machineId : Int) (sequence : Nat)
    (r1 r2 : List Char) : List Char :=
  intToChars timestamp ++ '-' ::
    (intToChars machineId ++ '-' ::
      (natToChars sequence ++ '-' :: (r1 ++ '-' :: r2)))

/-- Run of 1–4 decimal digits (`\d{1,4}`) generalised to bounds `lo`/`hi`. -/
def digitsRun (lo hi : Nat) (f : List Char) : Bool :=
  decide (lo ≤ f.length) && decide (f.length ≤ hi) && f.all isDigitCh

/-- Run of exactly 4 lowercase-alphanumeric characters (`[a-z0-9]{4}`). -/
def randRun (f : List Char) : Bool :=
  decide (f.length = 4) && f.all isLowerAlnum

/-- Model of `isValidTUID`, the anchored regex test
`/^\d{13}-\d{1,4}-\d{1,4}-[a-z0-9]{4}-[a-z0-9]{4}$/.test(tuid)`.
The separator `-` belongs to none of the character classes of the pattern, so
a whole-string match exists exactly when splitting the string at every `-`
yields five fields of the required shapes; the greedy quantifiers never need
backtracking because each bounded class run is followed by a character (`-`
or end of string) outside the class.  `List.splitOn '-'` is the same
decomposition JS `split('-')` performs. -/
def isValidTUID (s : List Char) : Bool :=
  match s.splitOn '-' with
  | [t, m, q, r1, r2] =>
      digitsRun 13 13 t && digitsRun 1 4 m && digitsRun 1 4 q &&
        randRun r1 && randRun r2
  | _ => false

/-- Model of `getTUIDVersion`: `isValidTUID(tuid) ? 'v1' : 'unknown'`. -/
def getTUIDVersion (s : List Char) : String :=
  if isValidTUID s then ("v1") else ("unknown")

/-- White-space characters skipped by JS `parseInt` (the StrWhiteSpace set:
tab, LF, VT, FF, CR, space, NBSP, BOM; further Unicode space separators are
irrelevant to the strings of this development). -/
def isJsSpace (c : Char) : Bool :=
  c = ' ' || c = '\t' || c = '\n' || c = '\r' ||
    c = Char.ofNat 11 || c = Char.ofNat 12 ||
    c = Char.ofNat 0xa0 || c = Char.ofNat 0xfeff

/-- Value of a list of decimal digit characters, most significant first. -/
def decDigitsVal (ds : List Char) : Nat :=
  ds.foldl (fun a c => 10 * a + (c.toNat - 48)) 0

/-- Model of JS `parseInt(s, 10)`: skip leading white space, read an optional
sign, then the maximal run of leading decimal digits; the result is NaN
(modelled as `none`) when that run is empty, and otherwise the signed value
of the run.  Trailing non-digit characters are ignored, exactly as in JS. -/
def jsParseInt (s : List Char) : Option Int :=
  match s.dropWhile isJsSpace with
  | [] => none
  | c :: rest =>
    if c = '-' then
      let ds := rest.takeWhile isDigitCh
      if ds.isEmpty then none else some (-(decDigitsVal ds : Int))
    else if c = '+' then
      let ds := rest.takeWhile isDigitCh
      if ds.isEmpty then none else some (decDigitsVal ds : Int)
    else
      let ds := (c :: rest).takeWhile isDigitCh
      if ds.isEmpty then none else some (decDigitsVal ds : Int)

/-- Result object of `parseTUID`.  The three numeric fields are JS numbers
produced by `parseInt`, hence possibly NaN (`none`); the two string fields
are returned verbatim. -/
structure ParsedTUID where
  timestamp : Option Int
  machineId : Option Int
  sequence : Option Int
  randomString1 : List Char
  randomString2 : List Char
deriving Repr, DecidableEq

/-- Model of `parseTUID`: return `null` when `isValidTUID` fails, otherwise
split on `-` and destructure the first five fields
(`const [a, b, c, d, e] = tuid.split('-')`), decimal-parsing the first three.
The validation guarantees the split has exactly five fields, so the final
catch-all branch (where the JS destructuring would yield `undefined` fields)
is unreachable. -/
def parseTUID (s : List Char) : Option ParsedTUID :=
  if isValidTUID s then
    match s.splitOn '-' with
    | t :: m :: q :: r1 :: r2 :: _ =>
        some ⟨jsParseInt t, jsParseInt m, jsParseInt q, r1, r2⟩
    | _ => none
  else none

/-- JS number as seen by the constructor's range check: a finite double
(every finite double is a rational, and `<` on finite doubles agrees with
rational `<`) or NaN.  Infinities never reach this code path with a meaning
distinct from large finite values for the checks involved, and are omitted. -/
inductive JSNum where
  | nan : JSNum
  | num : Rat → JSNum
deriving Repr, DecidableEq

/-- JS `<` on numbers: false whenever either side is NaN. -/
def jsLt : JSNum → JSNum → Bool
  | JSNum.num a, JSNum.num b => decide (a < b)
  | _, _ => false

/-- Fields of a `TUIDGenerator` instance right after construction:
the validated `machineId` and the initial mutable state
(`sequence = 0`, `lastTimestamp = -1`). -/
structure TUIDGen where
  machineId : JSNum
  sequence : Nat
  lastTimestamp : Int
deriving Repr, DecidableEq

/-- Model of the constructor:
`if (machineId < 0 || machineId > 1023) throw new Error(...)`, otherwise an
instance with the field initialisers `sequence = 0`, `lastTimestamp = -1`.
`machineId > 1023` is `1023 < machineId`. -/
def construct (machineId : JSNum) : Except String TUIDGen :=
  if jsLt machineId (JSNum.num 0) || jsLt (JSNum.num 1023) machineId then
    Except.error ("Machine ID must be between 0 and 1023.")
  else
    Except.ok ⟨machineId, 0, -1⟩

/-- Mutable per-instance state read and written by `generateV1`. -/
structure GenState where
  sequence : Nat
  lastTimestamp : Int
deriving Repr, DecidableEq

/-- State of a freshly constructed generator. -/
def initState : GenState := ⟨0, -1⟩

/-- Model of the busy-wait loop
`while (timestamp <= lastTimestamp) { timestamp = this.currentTimestamp(); }`
entered with a current reading equal to `lastTimestamp`: consume clock
readings until one exceeds `last`, returning it together with the unread
remainder of the clock stream, or `none` when the (finite) modelled stream
runs out first. -/
def busyWait (last : Int) : List Int → Option (Int × List Int)
  | [] => none
  | t :: rest => if t ≤ last then busyWait last rest else some (t, rest)

/-- Model of one call of `generateV1`.  `clock` is the stream of values
successive `Date.now()` reads would return, starting with the read at the top
of the call; `raw1`/`raw2` are the strings the two `Math.random().toString(36)`
evaluations produce.  The result is the returned identifier, the instance
state after the call, and the unread remainder of the clock stream (`none`
only when the modelled finite clock stream is exhausted, which stands for the
busy-wait loop not terminating). -/
def generateV1 (machineId : Int) (st : GenState) (clock : List Int)
    (raw1 raw2 : List Char) : Option (List Char × GenState × List Int) :=
  match clock with
  | [] => none
  | t :: rest =>
    if t = st.lastTimestamp then
      let seq := (st.sequence + 1) &&& 4095
      if seq = 0 then
        match busyWait st.lastTimestamp rest with
        | none => none
        | some (t', rest') =>
            some (tuidString t' machineId seq (randSegment raw1)
              (randSegment raw2), ⟨seq, t'⟩, rest')
      else
        some (tuidString t machineId seq (randSegment raw1)
          (randSegment raw2), ⟨seq, t⟩, rest)
    else
      some (tuidString t machineId 0 (randSegment raw1)
        (randSegment raw2), ⟨0, t⟩, rest)

/-- The `(timestamp, sequence)` pair carried by the identifier one
`generateV1` call returns.  It equals the updated state
`(lastTimestamp, sequence)` in every branch of `generateV1` (lemma
`generateV1_eq_tuidString` below), and it does not depend on the random
strings, so those are passed as `[]`. -/
def genPair (machineId : Int) (st : GenState) (clock : List Int) :
    Option ((Int × Nat) × GenState × List Int) :=
  match generateV1 machineId st clock [] [] with
  | none => none
  | some (_, st', rest) => some ((st'.lastTimestamp, st'.sequence), st', rest)

/-- The `(timestamp, sequence)` pairs of `n` successive `generateV1` calls on
one instance, drawing clock readings from the single stream `clock`. -/
def runPairs (machineId : Int) : GenState → List Int → Nat →
    Option (List (Int × Nat))
  | _, _, 0 => some []
  | st, clock, n + 1 =>
    match genPair machineId st clock with
    | none => none
    | some (p, st', rest) =>
      match runPairs machineId st' rest n with
      | none => none
      | some ps => some (p :: ps)

/-- Concrete non-integral rational 3/2, a value exactly representable as a
double, used to witness the constructor's missing integrality check. -/
def threeHalves : Rat := Rat.mk' 3 2 (by decide) (by decide)

/-- Every pair of `ps` lies strictly after the state `st` in the
lexicographic order the generator advances through: a strictly larger
timestamp, or the same timestamp with a strictly larger sequence. -/
def pairsAfter (st : GenState) (ps : List (Int × Nat)) : Prop :=
  ∀ p ∈ ps, st.lastTimestamp < p.1 ∨
    (p.1 = st.lastTimestamp ∧ st.sequence < p.2)

/-! Helper lemmas. -/

/-- Masking with `4095 = 2^12 - 1` is reduction modulo `4096 = 2^12`. -/
theorem land4095_eq_mod (n : Nat) : n &&& 4095 = n % 4096 := by
  have h := Nat.and_pow_two_sub_one_eq_mod n 12
  norm_num at h
  exact h

/-- Unfolding of `generateV1` for a clock reading distinct from
`lastTimestamp` (new millisecond, first call, and backward jumps alike). -/
theorem generateV1_new (m : Int) (st : GenState) (t : Int) (rest : List Int)
    (r1 r2 : List Char) (h : ¬ t = st.lastTimestamp) :
    generateV1 m st (t :: rest) r1 r2 =
      some (tuidString t m 0 (randSegment r1) (randSegment r2), ⟨0, t⟩, rest) := by
  simp [generateV1, h]

/-- Unfolding of `generateV1` for a repeated clock reading whose sequence
increment does not wrap. -/
theorem generateV1_same (m : Int) (st : GenState) (t : Int) (rest : List Int)
    (r1 r2 : List Char) (h : t = st.lastTimestamp)
    (hw : ¬ (st.sequence + 1) &&& 4095 = 0) :
    generateV1 m st (t :: rest) r1 r2 =
      some (tuidString t m ((st.sequence + 1) &&& 4095) (randSegment r1)
        (randSegment r2), ⟨(st.sequence + 1) &&& 4095, t⟩, rest) := by
  simp [generateV1, h, hw]

/-- Unfolding of `generateV1` for a repeated clock reading whose sequence
increment wraps to `0`: the call busy-waits. -/
theorem generateV1_wrap (m : Int) (st : GenState) (t : Int) (rest : List Int)
    (r1 r2 : List Char) (h : t = st.lastTimestamp)
    (hw : (st.sequence + 1) &&& 4095 = 0) :
    generateV1 m st (t :: rest) r1 r2 =
      (busyWait st.lastTimestamp rest).map (fun tr =>
        (tuidString tr.1 m 0 (randSegment r1) (randSegment r2),
          ⟨0, tr.1⟩, tr.2)) := by
  cases hbw : busyWait st.lastTimestamp rest with
  | none => simp [generateV1, h, hw, hbw]
  | some tr => cases tr with
    | mk t' rest' => simp [generateV1, h, hw, hbw]

/-- The identifier a successful `generateV1` call returns carries exactly the
updated state: its timestamp field is the new `lastTimestamp` and its
sequence field is the new `sequence`. -/
theorem generateV1_eq_tuidString (m : Int) (st : GenState) (clock : List Int)
    (r1 r2 : List Char) (id : List Char) (st' : GenState) (rest : List Int)
    (h : generateV1 m st clock r1 r2 = some (id, st', rest)) :
    id = tuidString st'.lastTimestamp m st'.sequence (randSegment r1)
      (randSegment r2) := by
  cases clock with
  | nil => simp [generateV1] at h
  | cons t rs =>
    by_cases ht : t = st.lastTimestamp
    · by_cases hw : (st.sequence + 1) &&& 4095 = 0
      · rw [generateV1_wrap m st t rs r1 r2 ht hw] at h
        cases hbw : busyWait st.lastTimestamp rs with
        | none => rw [hbw] at h; simp at h
        | some tr =>
          rw [hbw] at h
          simp only [Option.map_some', Option.some.injEq, Prod.mk.injEq] at h
          obtain ⟨rfl, rfl, rfl⟩ := h
          rfl
      · rw [generateV1_same m st t rs r1 r2 ht hw] at h
        simp only [Option.some.injEq, Prod.mk.injEq] at h
        obtain ⟨rfl, rfl, rfl⟩ := h
        rfl
    · rw [generateV1_new m st t rs r1 r2 ht] at h
      simp only [Option.some.injEq, Prod.mk.injEq] at h
      obtain ⟨rfl, rfl, rfl⟩ := h
      rfl

/-- The busy-wait loop returns the first clock reading exceeding `last`; on a
non-decreasing reading stream, the unread remainder is still non-decreasing
and every unread reading is at least the returned one. -/
theorem busyWait_spec (last : Int) (rs : List Int) (t' : Int) (rest' : List Int)
    (hpw : rs.Pairwise (· ≤ ·)) (h : busyWait last rs = some (t', rest')) :
    last < t' ∧ rest'.Pairwise (· ≤ ·) ∧ ∀ r ∈ rest', t' ≤ r := by
  induction rs with
  | nil => simp [busyWait] at h
  | cons r rss ih =>
    rw [List.pairwise_cons] at hpw
    by_cases hr : r ≤ last
    · rw [busyWait, if_pos hr] at h
      exact ih hpw.2 h
    · rw [busyWait, if_neg hr] at h
      simp only [Option.some.injEq, Prod.mk.injEq] at h
      obtain ⟨rfl, rfl⟩ := h
      exact ⟨by omega, hpw.2, hpw.1⟩

/-- Properties of one `genPair` step that hold unconditionally on a
non-decreasing clock stream: the emitted pair is the updated state, the
updated sequence stays in the 12-bit range, and the unread remainder of the
stream is non-decreasing and bounded below by the new `lastTimestamp`. -/
theorem genPair_spec (m : Int) (st : GenState) (rs : List Int) (p : Int × Nat)
    (st' : GenState) (rs' : List Int) (hpw : rs.Pairwise (· ≤ ·))
    (h : genPair m st rs = some (p, st', rs')) :
    p = (st'.lastTimestamp, st'.sequence) ∧ st'.sequence ≤ 4095 ∧
      rs'.Pairwise (· ≤ ·) ∧ (∀ r ∈ rs', st'.lastTimestamp ≤ r) := by
  cases rs with
  | nil => simp [genPair, generateV1] at h
  | cons t rss =>
    rw [List.pairwise_cons] at hpw
    by_cases ht : t = st.lastTimestamp
    · by_cases hw : (st.sequence + 1) &&& 4095 = 0
      · rw [genPair, generateV1_wrap m st t rss [] [] ht hw] at h
        cases hbw : busyWait st.lastTimestamp rss with
        | none => rw [hbw] at h; simp at h
        | some tr =>
          obtain ⟨t', rest'⟩ := tr
          rw [hbw] at h
          simp only [Option.map_some', Option.some.injEq, Prod.mk.injEq] at h
          obtain ⟨rfl, rfl, rfl⟩ := h
          obtain ⟨-, hpw', hub⟩ := busyWait_spec st.lastTimestamp rss t' rest' hpw.2 hbw
          refine ⟨rfl, ?_, hpw', hub⟩
          show (0 : Nat) ≤ 4095
          omega
      · rw [genPair, generateV1_same m st t rss [] [] ht hw] at h
        simp only [Option.some.injEq, Prod.mk.injEq] at h
        obtain ⟨rfl, rfl, rfl⟩ := h
        refine ⟨rfl, ?_, hpw.2, ?_⟩
        · show (st.sequence + 1) &&& 4095 ≤ 4095
          rw [land4095_eq_mod]
          omega
        · intro r hr
          exact hpw.1 r hr
    · rw [genPair, generateV1_new m st t rss [] [] ht] at h
      simp only [Option.some.injEq, Prod.mk.injEq] at h
      obtain ⟨rfl, rfl, rfl⟩ := h
      refine ⟨rfl, ?_, hpw.2, hpw.1⟩
      show (0 : Nat) ≤ 4095
      omega

/-- A `genPair` step advances the state strictly in the lexicographic
`(lastTimestamp, sequence)` order, provided every pending clock reading is at
least the current `lastTimestamp`. -/
theorem genPair_progress (m : Int) (st : GenState) (rs : List Int)
    (p : Int × Nat) (st' : GenState) (rs' : List Int)
    (hpw : rs.Pairwise (· ≤ ·)) (hseq : st.sequence ≤ 4095)
    (hlo : ∀ r ∈ rs, st.lastTimestamp ≤ r)
    (h : genPair m st rs = some (p, st', rs')) :
    st.lastTimestamp < st'.lastTimestamp ∨
      (st'.lastTimestamp = st.lastTimestamp ∧ st.sequence < st'.sequence) := by
  cases rs with
  | nil => simp [genPair, generateV1] at h
  | cons t rss =>
    rw [List.pairwise_cons] at hpw
    by_cases ht : t = st.lastTimestamp
    · by_cases hw : (st.sequence + 1) &&& 4095 = 0
      · rw [genPair, generateV1_wrap m st t rss [] [] ht hw] at h
        cases hbw : busyWait st.lastTimestamp rss with
        | none => rw [hbw] at h; simp at h
        | some tr =>
          obtain ⟨t', rest'⟩ := tr
          rw [hbw] at h
          simp only [Option.map_some', Option.some.injEq, Prod.mk.injEq] at h
          obtain ⟨rfl, rfl, rfl⟩ := h
          obtain ⟨hgt, -, -⟩ := busyWait_spec st.lastTimestamp rss t' rest' hpw.2 hbw
          exact Or.inl hgt
      · rw [genPair, generateV1_same m st t rss [] [] ht hw] at h
        simp only [Option.some.injEq, Prod.mk.injEq] at h
        obtain ⟨rfl, rfl, rfl⟩ := h
        refine Or.inr ⟨ht, ?_⟩
        show st.sequence < (st.sequence + 1) &&& 4095
        rw [land4095_eq_mod] at hw ⊢
        omega
    · rw [genPair, generateV1_new m st t rss [] [] ht] at h
      simp only [Option.some.injEq, Prod.mk.injEq] at h
      obtain ⟨rfl, rfl, rfl⟩ := h
      have := hlo t (List.mem_cons_self t rss)
      refine Or.inl ?_
      show st.lastTimestamp < t
      omega

/-- Pairs lying strictly after a state are distinct from the pair the state
itself carries. -/
theorem pairsAfter_ne (st : GenState) (ps : List (Int × Nat))
    (h : pairsAfter st ps) :
    ∀ p ∈ ps, (st.lastTimestamp, st.sequence) ≠ p := by
  intro p hp heq
  rcases h p hp with hlt | ⟨heq1, hlt2⟩
  · rw [← heq] at hlt
    exact absurd hlt (lt_irrefl _)
  · rw [← heq] at heq1 hlt2
    exact absurd hlt2 (lt_irrefl _)

/-- Strict lexicographic progress of the state transports `pairsAfter`
backwards through one step. -/
theorem pairsAfter_step (st st' : GenState) (ps : List (Int × Nat))
    (hprog : st.lastTimestamp < st'.lastTimestamp ∨
      (st'.lastTimestamp = st.lastTimestamp ∧ st.sequence < st'.sequence))
    (h : pairsAfter st' ps) :
    pairsAfter st ((st'.lastTimestamp, st'.sequence) :: ps) := by
  intro p hp
  rcases List.mem_cons.1 hp with rfl | hmem
  · rcases hprog with h1 | ⟨h1, h2⟩
    · exact Or.inl h1
    · exact Or.inr ⟨h1, h2⟩
  · rcases h p hmem with h1 | ⟨h1, h2⟩
    · rcases hprog with h3 | ⟨h3, _⟩
      · exact Or.inl (lt_trans h3 h1)
      · exact Or.inl (h3 ▸ h1)
    · rcases hprog with h3 | ⟨h3, h4⟩
      · exact Or.inl (h1 ▸ h3)
      · exact Or.inr ⟨h1.trans h3, lt_trans h4 h2⟩

/-- Main invariant of a run: on a non-decreasing clock stream bounded below
by the current `lastTimestamp`, with the sequence in its 12-bit range, all
pairs a run emits are pairwise distinct and lie strictly after the starting
state. -/
theorem runPairs_good (m : Int) : ∀ (n : Nat) (st : GenState) (rs : List Int)
    (ps : List (Int × Nat)), rs.Pairwise (· ≤ ·) → st.sequence ≤ 4095 →
    (∀ r ∈ rs, st.lastTimestamp ≤ r) → runPairs m st rs n = some ps →
    ps.Pairwise (· ≠ ·) ∧ pairsAfter st ps := by
  intro n
  induction n with
  | zero =>
    intro st rs ps _ _ _ h
    simp only [runPairs, Option.some.injEq] at h
    subst h
    exact ⟨List.Pairwise.nil, by intro p hp; simp at hp⟩
  | succ k ih =>
    intro st rs ps hpw hseq hlo h
    rw [runPairs] at h
    cases hg : genPair m st rs with
    | none => rw [hg] at h; simp at h
    | some x =>
      obtain ⟨p, st', rs'⟩ := x
      rw [hg] at h
      dsimp only at h
      cases hrun : runPairs m st' rs' k with
      | none => rw [hrun] at h; simp at h
      | some ps' =>
        rw [hrun] at h
        simp only [Option.some.injEq] at h
        subst h
        obtain ⟨hp, hseq', hpw', hlo'⟩ := genPair_spec m st rs p st' rs' hpw hg
        have hprog := genPair_progress m st rs p st' rs' hpw hseq hlo hg
        obtain ⟨hne', hafter'⟩ := ih st' rs' ps' hpw' hseq' hlo' hrun
        subst hp
        constructor
        · rw [List.pairwise_cons]
          exact ⟨pairsAfter_ne st' ps' hafter', hne'⟩
        · exact pairsAfter_step st st' ps' hprog hafter'

/-- Decimal digits are not white space for `parseInt`. -/
theorem digit_not_space (c : Char) (h : isDigitCh c = true) :
    isJsSpace c = false := by
  cases hs : isJsSpace c
  · rfl
  · exfalso
    simp only [isJsSpace, Bool.or_eq_true, decide_eq_true_eq] at hs
    rcases hs with (((((((h1 | h1) | h1) | h1) | h1) | h1) | h1) | h1) <;>
      (subst h1; exact absurd h (by decide))

/-- A list all of whose elements satisfy `p` is its own `takeWhile p`. -/
theorem takeWhile_all {p : Char → Bool} : ∀ (f : List Char),
    (∀ c ∈ f, p c = true) → f.takeWhile p = f := by
  intro f h
  induction f with
  | nil => rfl
  | cons c cs ih =>
    simp only [List.takeWhile_cons, h c (List.mem_cons_self c cs), if_true]
    rw [ih (fun x hx => h x (List.mem_cons_of_mem c hx))]

/-- On a nonempty all-digit string, JS `parseInt(s, 10)` succeeds and returns
the decimal value of the whole string. -/
theorem jsParseInt_digits (f : List Char) (hne : f ≠ [])
    (hall : ∀ c ∈ f, isDigitCh c = true) :
    jsParseInt f = some ((decDigitsVal f : Nat) : Int) := by
  cases f with
  | nil => exact absurd rfl hne
  | cons c cs =>
    have hc := hall c (List.mem_cons_self c cs)
    have hdrop : (c :: cs).dropWhile isJsSpace = c :: cs := by
      rw [List.dropWhile_cons, digit_not_space c hc]
      simp
    have hcd : ¬ c = '-' := by
      intro h1
      subst h1
      exact absurd hc (by decide)
    have hcp : ¬ c = '+' := by
      intro h1
      subst h1
      exact absurd hc (by decide)
    unfold jsParseInt
    rw [hdrop]
    dsimp only
    rw [if_neg hcd, if_neg hcp, takeWhile_all (c :: cs) hall]
    simp

/-- Decimal digits are distinct from the separator `-`. -/
theorem digit_ne_dash (c : Char) (h : isDigitCh c = true) : c ≠ '-' := by
  intro h1
  subst h1
  exact absurd h (by decide)

/-- Lowercase-alphanumeric characters are distinct from the separator `-`. -/
theorem lowerAlnum_ne_dash (c : Char) (h : isLowerAlnum c = true) : c ≠ '-' := by
  intro h1
  subst h1
  exact absurd h (by decide)

/-- Unfolding of `digitsRun` into its three conditions. -/
theorem digitsRun_iff (lo hi : Nat) (f : List Char) :
    digitsRun lo hi f = true ↔
      lo ≤ f.length ∧ f.length ≤ hi ∧ ∀ c ∈ f, isDigitCh c = true := by
  simp [digitsRun, List.all_eq_true, and_assoc]

/-- Unfolding of `randRun` into its two conditions. -/
theorem randRun_iff (f : List Char) :
    randRun f = true ↔ f.length = 4 ∧ ∀ c ∈ f, isLowerAlnum c = true := by
  simp [randRun, List.all_eq_true]

/-- Interspersing `-` between five fields is their dashed concatenation. -/
theorem inter5 (t m q r1 r2 : List Char) :
    ['-'].intercalate [t, m, q, r1, r2] =
      t ++ ['-'] ++ m ++ ['-'] ++ q ++ ['-'] ++ r1 ++ ['-'] ++ r2 := by
  simp [List.intercalate]

/-! Claim theorems. -/

/-- C1: the claim states that every identifier `generateV1()` returns passes
`isValidTUID`, parses to a non-null result carrying the constructed
`machineId`, and has two random segments of exactly 4 lowercase-alphanumeric
characters.  The code violates this: `Math.random().toString(36).substring(2, 6)`
yields fewer than 4 characters whenever the drawn double has a base-36
expansion shorter than 4 fraction digits.  `Math.random()` can return exactly
`0.5`, whose base-36 string is `"0.i"`, so the segment is the single
character `"i"`; the generated identifier then fails `isValidTUID` and
parses to null, contradicting the claim (and the repository's own test that
matches generated output against the 4-character pattern). -/
theorem claim1_short_random_segment :
    randSegment ("0.i".data) = "i".data ∧
    ("i".data).length ≠ 4 ∧
    generateV1 1 initState [1609459200000] ("0.i".data) ("0.i".data) =
      some ("1609459200000-1-0-i-i".data, ⟨0, 1609459200000⟩, []) ∧
    isValidTUID ("1609459200000-1-0-i-i".data) = false ∧
    parseTUID ("1609459200000-1-0-i-i".data) = none := by
  decide

/-- C2: on one generator instance, as long as clock readings never decrease,
no two `generateV1` calls emit identifiers agreeing on both the timestamp and
the sequence field (each emitted identifier's pair is the updated state pair,
by `generateV1_eq_tuidString`): every run of calls yields pairwise distinct
`(timestamp, sequence)` pairs, the wrap-to-0 case busy-waiting for a strictly
larger clock value before emitting. -/
theorem claim2_no_duplicate_pairs (m : Int) (rs : List Int) (n : Nat)
    (ps : List (Int × Nat)) (hchain : rs.Chain' (· ≤ ·))
    (h : runPairs m initState rs n = some ps) :
    ps.Pairwise (· ≠ ·) := by
  have hpw : rs.Pairwise (· ≤ ·) := List.chain'_iff_pairwise.mp hchain
  cases n with
  | zero =>
    simp only [runPairs, Option.some.injEq] at h
    subst h
    exact List.Pairwise.nil
  | succ k =>
    rw [runPairs] at h
    cases hg : genPair m initState rs with
    | none => rw [hg] at h; simp at h
    | some x =>
      obtain ⟨p, st', rs'⟩ := x
      rw [hg] at h
      dsimp only at h
      cases hrun : runPairs m st' rs' k with
      | none => rw [hrun] at h; simp at h
      | some ps' =>
        rw [hrun] at h
        simp only [Option.some.injEq] at h
        subst h
        obtain ⟨hp, hseq', hpw', hlo'⟩ := genPair_spec m initState rs p st' rs' hpw hg
        obtain ⟨hne', hafter'⟩ := runPairs_good m k st' rs' ps' hpw' hseq' hlo' hrun
        subst hp
        rw [List.pairwise_cons]
        exact ⟨pairsAfter_ne st' ps' hafter', hne'⟩

/-- Witness for C2: two calls within the same millisecond 5 yield the
distinct pairs (5, 0) and (5, 1). -/
theorem claim2_witness :
    ([((5 : Int), (0 : Nat)), (5, 1)]).Pairwise (· ≠ ·) :=
  claim2_no_duplicate_pairs 1 [5, 5] 2 [(5, 0), (5, 1)]
    (List.chain'_cons.2 ⟨le_refl 5, List.chain'_singleton 5⟩) (by decide)

/-- C3: construction succeeds for every integer `machineId` in `[0, 1023]`,
with `sequence` initialised to 0 and `lastTimestamp` to the sentinel `-1`,
and fails with the configuration error (the thrown `Error`, so no instance
reaches the caller) for every integer outside that range. -/
theorem claim3_constructor_range (n : Int) :
    (0 ≤ n → n ≤ 1023 →
      construct (JSNum.num (n : Rat)) =
        Except.ok ⟨JSNum.num (n : Rat), 0, -1⟩) ∧
    (n < 0 ∨ 1023 < n →
      construct (JSNum.num (n : Rat)) =
        Except.error ("Machine ID must be between 0 and 1023.")) := by
  constructor
  · intro h0 h1
    unfold construct
    rw [if_neg]
    simp only [jsLt, Bool.or_eq_true, decide_eq_true_eq]
    rintro (h | h)
    · exact absurd h (not_lt.2 (by exact_mod_cast h0))
    · exact absurd h (not_lt.2 (by exact_mod_cast h1))
  · rintro (h | h) <;>
      (unfold construct
       rw [if_pos]
       simp only [jsLt, Bool.or_eq_true, decide_eq_true_eq])
    · exact Or.inl (by exact_mod_cast h)
    · exact Or.inr (by exact_mod_cast h)

/-- Witness for C3: machine id 5 constructs, machine id 2000 throws. -/
theorem claim3_witness :
    construct (JSNum.num ((5 : Int) : Rat)) =
      Except.ok ⟨JSNum.num ((5 : Int) : Rat), 0, -1⟩ ∧
    construct (JSNum.num ((2000 : Int) : Rat)) =
      Except.error ("Machine ID must be between 0 and 1023.") :=
  ⟨(claim3_constructor_range 5).1 (by decide) (by decide),
    (claim3_constructor_range 2000).2 (Or.inr (by decide))⟩

/-- C4: when the clock reading equals `lastTimestamp`, the stored sequence
becomes `(sequence + 1) mod 4096`; the bitwise AND with 4095 the code uses
computes exactly that value, so the sequence stays in the 12-bit range
0–4095.  This covers both the non-wrapping case and the wrap-to-0 case
(where the emitted sequence is the masked value 0 after the busy-wait). -/
theorem claim4_sequence_increment (m : Int) (st : GenState) (t : Int)
    (clock : List Int) (raw1 raw2 : List Char) (id : List Char)
    (st' : GenState) (rest : List Int) (hseq : st.sequence ≤ 4095)
    (ht : t = st.lastTimestamp)
    (h : generateV1 m st (t :: clock) raw1 raw2 = some (id, st', rest)) :
    st'.sequence = (st.sequence + 1) % 4096 ∧
      (st.sequence + 1) &&& 4095 = (st.sequence + 1) % 4096 ∧
      st'.sequence ≤ 4095 := by
  have hmask := land4095_eq_mod (st.sequence + 1)
  by_cases hw : (st.sequence + 1) &&& 4095 = 0
  · rw [generateV1_wrap m st t clock raw1 raw2 ht hw] at h
    cases hbw : busyWait st.lastTimestamp clock with
    | none => rw [hbw] at h; simp at h
    | some tr =>
      rw [hbw] at h
      simp only [Option.map_some', Option.some.injEq, Prod.mk.injEq] at h
      obtain ⟨-, h2, -⟩ := h
      rw [← h2]
      refine ⟨?_, hmask, ?_⟩
      · show (0 : Nat) = (st.sequence + 1) % 4096
        omega
      · show (0 : Nat) ≤ 4095
        omega
  · rw [generateV1_same m st t clock raw1 raw2 ht hw] at h
    simp only [Option.some.injEq, Prod.mk.injEq] at h
    obtain ⟨-, h2, -⟩ := h
    rw [← h2]
    refine ⟨?_, hmask, ?_⟩
    · show (st.sequence + 1) &&& 4095 = (st.sequence + 1) % 4096
      exact hmask
    · show (st.sequence + 1) &&& 4095 ≤ 4095
      omega

/-- Witness for C4: a second call in millisecond 5 moves the sequence from 0
to 1 = (0 + 1) mod 4096. -/
theorem claim4_witness :
    ((⟨1, 5⟩ : GenState)).sequence = (0 + 1) % 4096 ∧
      (0 + 1) &&& 4095 = (0 + 1) % 4096 ∧
      ((⟨1, 5⟩ : GenState)).sequence ≤ 4095 :=
  claim4_sequence_increment 1 ⟨0, 5⟩ 5 [] [] [] (tuidString 5 1 1 [] [])
    ⟨1, 5⟩ [] (by decide) rfl (by decide)

/-- C5: a clock reading strictly below `lastTimestamp` (backward clock jump)
is handled exactly like a new millisecond: the call succeeds with no error or
correction, the sequence resets to 0 and `lastTimestamp` is overwritten with
the smaller reading. -/
theorem claim5_backward_clock (m : Int) (st : GenState) (t : Int)
    (clock : List Int) (raw1 raw2 : List Char)
    (hlt : t < st.lastTimestamp) :
    generateV1 m st (t :: clock) raw1 raw2 =
      some (tuidString t m 0 (randSegment raw1) (randSegment raw2),
        ⟨0, t⟩, clock) :=
  generateV1_new m st t clock raw1 raw2 (by omega)

/-- Witness for C5: from state (sequence 3, lastTimestamp 10), the backward
reading 7 resets the sequence and stores 7. -/
theorem claim5_witness :
    generateV1 1 ⟨3, 10⟩ [7] [] [] =
      some (tuidString 7 1 0 (randSegment []) (randSegment []), ⟨0, 7⟩, []) :=
  claim5_backward_clock 1 ⟨3, 10⟩ 7 [] [] [] (by decide)

/-- C6: a string passes `isValidTUID` exactly when it consists, with nothing
before or after, of 13 decimal digits, a dash, 1–4 decimal digits, a dash,
1–4 decimal digits, a dash, exactly 4 lowercase-alphanumeric characters, a
dash, and exactly 4 lowercase-alphanumeric characters; consequently strings
with a wrong field count, wrong digit counts, uppercase letters in the
random segments, or extra surrounding characters are rejected. -/
theorem claim6_valid_shape (s : List Char) :
    isValidTUID s = true ↔
    ∃ t m q r1 r2 : List Char,
      s = t ++ ['-'] ++ m ++ ['-'] ++ q ++ ['-'] ++ r1 ++ ['-'] ++ r2 ∧
      t.length = 13 ∧ (∀ c ∈ t, isDigitCh c = true) ∧
      1 ≤ m.length ∧ m.length ≤ 4 ∧ (∀ c ∈ m, isDigitCh c = true) ∧
      1 ≤ q.length ∧ q.length ≤ 4 ∧ (∀ c ∈ q, isDigitCh c = true) ∧
      r1.length = 4 ∧ (∀ c ∈ r1, isLowerAlnum c = true) ∧
      r2.length = 4 ∧ (∀ c ∈ r2, isLowerAlnum c = true) := by
  constructor
  · intro h
    unfold isValidTUID at h
    split at h
    case _ t m q r1 r2 heq =>
      have hs : s = t ++ ['-'] ++ m ++ ['-'] ++ q ++ ['-'] ++ r1 ++ ['-'] ++ r2 := by
        have h2 := List.intercalate_splitOn s '-'
        rw [heq, inter5] at h2
        exact h2.symm
      simp only [Bool.and_eq_true] at h
      obtain ⟨⟨⟨⟨hA, hB⟩, hC⟩, hD⟩, hE⟩ := h
      obtain ⟨hA1, hA2, hA3⟩ := (digitsRun_iff 13 13 t).1 hA
      obtain ⟨hB1, hB2, hB3⟩ := (digitsRun_iff 1 4 m).1 hB
      obtain ⟨hC1, hC2, hC3⟩ := (digitsRun_iff 1 4 q).1 hC
      obtain ⟨hD1, hD2⟩ := (randRun_iff r1).1 hD
      obtain ⟨hE1, hE2⟩ := (randRun_iff r2).1 hE
      exact ⟨t, m, q, r1, r2, hs, by omega, hA3, hB1, hB2, hB3, hC1, hC2, hC3,
        hD1, hD2, hE1, hE2⟩
    case _ => simp at h
  · rintro ⟨t, m, q, r1, r2, rfl, ht13, htd, hm1, hm4, hmd, hq1, hq4, hqd,
      hr1l, hr1a, hr2l, hr2a⟩
    have hsp : (t ++ ['-'] ++ m ++ ['-'] ++ q ++ ['-'] ++ r1 ++ ['-'] ++ r2).splitOn '-'
        = [t, m, q, r1, r2] := by
      rw [← inter5]
      refine List.splitOn_intercalate _ '-' ?_ (by simp)
      intro l hl
      simp only [List.mem_cons, List.not_mem_nil, or_false] at hl
      rcases hl with rfl | rfl | rfl | rfl | rfl
      · intro hc
        exact digit_ne_dash '-' (htd '-' hc) rfl
      · intro hc
        exact digit_ne_dash '-' (hmd '-' hc) rfl
      · intro hc
        exact digit_ne_dash '-' (hqd '-' hc) rfl
      · intro hc
        exact lowerAlnum_ne_dash '-' (hr1a '-' hc) rfl
      · intro hc
        exact lowerAlnum_ne_dash '-' (hr2a '-' hc) rfl
    unfold isValidTUID
    rw [hsp]
    simp only [Bool.and_eq_true]
    exact ⟨⟨⟨⟨(digitsRun_iff 13 13 t).2 ⟨by omega, by omega, htd⟩,
      (digitsRun_iff 1 4 m).2 ⟨hm1, hm4, hmd⟩⟩,
      (digitsRun_iff 1 4 q).2 ⟨hq1, hq4, hqd⟩⟩,
      (randRun_iff r1).2 ⟨hr1l, hr1a⟩⟩,
      (randRun_iff r2).2 ⟨hr2l, hr2a⟩⟩

/-- C7: `isValidTUID` does not enforce the semantic ranges: the string
`1609459200000-9999-0-abcd-efgh`, whose machine-id field decodes to 9999 >
1023, is reported valid (and parses to machine id 9999), because the check
only counts digits. -/
theorem claim7_no_semantic_range :
    isValidTUID ("1609459200000-9999-0-abcd-efgh".data) = true ∧
    parseTUID ("1609459200000-9999-0-abcd-efgh".data) =
      some ⟨some 1609459200000, some 9999, some 0, "abcd".data, "efgh".data⟩ ∧
    ¬ (9999 : Int) ≤ 1023 := by
  decide

/-- C8: `getTUIDVersion` returns `"v1"` exactly when `isValidTUID` holds and
`"unknown"` otherwise, and these are its only possible results. -/
theorem claim8_version (s : List Char) :
    (getTUIDVersion s = "v1" ↔ isValidTUID s = true) ∧
    (getTUIDVersion s = "unknown" ↔ isValidTUID s = false) ∧
    (getTUIDVersion s = "v1" ∨ getTUIDVersion s = "unknown") := by
  unfold getTUIDVersion
  cases h : isValidTUID s <;> simp

/-- C9: `parseTUID` returns null exactly on strings failing `isValidTUID`;
on every valid string it cannot fail: it returns the five dash-separated
fields, the first three decimal-parsed to their integer values (no semantic
range check, and never NaN since the fields are nonempty digit runs), the
last two verbatim; in particular parsing `1609459200000-1-0-abcd-efgh`
yields timestamp 1609459200000, machine id 1, sequence 0 and the segments
`abcd` and `efgh`. -/
theorem claim9_parse (s : List Char) :
    (parseTUID s = none ↔ isValidTUID s = false) ∧
    (isValidTUID s = true →
      ∃ t m q r1 r2 : List Char, s.splitOn '-' = [t, m, q, r1, r2] ∧
        parseTUID s = some ⟨some ((decDigitsVal t : Nat) : Int),
          some ((decDigitsVal m : Nat) : Int),
          some ((decDigitsVal q : Nat) : Int), r1, r2⟩) ∧
    parseTUID ("1609459200000-1-0-abcd-efgh".data) =
      some ⟨some 1609459200000, some 1, some 0, "abcd".data, "efgh".data⟩ := by
  have key : isValidTUID s = true →
      ∃ t m q r1 r2 : List Char, s.splitOn '-' = [t, m, q, r1, r2] ∧
        parseTUID s = some ⟨some ((decDigitsVal t : Nat) : Int),
          some ((decDigitsVal m : Nat) : Int),
          some ((decDigitsVal q : Nat) : Int), r1, r2⟩ := by
    intro hv
    have hv' := hv
    unfold isValidTUID at hv'
    split at hv'
    case _ t m q r1 r2 heq =>
      simp only [Bool.and_eq_true] at hv'
      obtain ⟨⟨⟨⟨hA, hB⟩, hC⟩, -⟩, -⟩ := hv'
      obtain ⟨hA1, -, hA3⟩ := (digitsRun_iff 13 13 t).1 hA
      obtain ⟨hB1, -, hB3⟩ := (digitsRun_iff 1 4 m).1 hB
      obtain ⟨hC1, -, hC3⟩ := (digitsRun_iff 1 4 q).1 hC
      have htne : t ≠ [] := by
        intro h0
        subst h0
        simp at hA1
      have hmne : m ≠ [] := by
        intro h0
        subst h0
        simp at hB1
      have hqne : q ≠ [] := by
        intro h0
        subst h0
        simp at hC1
      refine ⟨t, m, q, r1, r2, heq, ?_⟩
      unfold parseTUID
      rw [if_pos hv, heq]
      dsimp only
      rw [jsParseInt_digits t htne hA3, jsParseInt_digits m hmne hB3,
        jsParseInt_digits q hqne hC3]
    case _ => exact absurd hv' (by simp)
  refine ⟨⟨?_, ?_⟩, key, by decide⟩
  · intro hn
    cases hval : isValidTUID s
    · rfl
    · obtain ⟨t, m, q, r1, r2, -, hp⟩ := key hval
      rw [hn] at hp
      exact absurd hp (by simp)
  · intro hf
    unfold parseTUID
    rw [if_neg (by simp [hf])]

/-- Witness for C9: the concrete valid string splits into five fields and
parses to their decimal values. -/
theorem claim9_witness :
    ∃ t m q r1 r2 : List Char,
      ("1609459200000-1-0-abcd-efgh".data).splitOn '-' = [t, m, q, r1, r2] ∧
      parseTUID ("1609459200000-1-0-abcd-efgh".data) =
        some ⟨some ((decDigitsVal t : Nat) : Int),
          some ((decDigitsVal m : Nat) : Int),
          some ((decDigitsVal q : Nat) : Int), r1, r2⟩ :=
  (claim9_parse ("1609459200000-1-0-abcd-efgh".data)).2.1 (by decide)

/-- C10: the constructor checks only the two bounds `machineId < 0` and
`machineId > 1023`, so construction succeeds for every number strictly
between 0 and 1023 — integral or not, e.g. 1.5 — and for NaN, for which both
comparisons are false; no integrality check exists. -/
theorem claim10_no_integrality_check (q : Rat) :
    (0 < q → q < 1023 →
      construct (JSNum.num q) = Except.ok ⟨JSNum.num q, 0, -1⟩) ∧
    construct JSNum.nan = Except.ok ⟨JSNum.nan, 0, -1⟩ := by
  constructor
  · intro h0 h1
    unfold construct
    rw [if_neg]
    simp only [jsLt, Bool.or_eq_true, decide_eq_true_eq]
    rintro (h | h)
    · exact absurd h (not_lt.2 h0.le)
    · exact absurd h (not_lt.2 h1.le)
  · rfl

/-- Witness for C10: the non-integer 3/2 and NaN both construct. -/
theorem claim10_witness :
    construct (JSNum.num threeHalves) =
      Except.ok ⟨JSNum.num threeHalves, 0, -1⟩ ∧
    construct JSNum.nan = Except.ok ⟨JSNum.nan, 0, -1⟩ ∧
    ¬ ∃ n : Int, (n : Rat) = threeHalves :=
  ⟨(claim10_no_integrality_check threeHalves).1 (by decide) (by decide),
    (claim10_no_integrality_check threeHalves).2, by
      rintro ⟨n, hn⟩
      have hd := Rat.den_intCast n
      rw [hn] at hd
      exact absurd hd (by decide)⟩

/-- Witness for C6: the concrete string `1609459200000-1-0-abcd-efgh`
decomposes as 13 digits, dash, 1 digit, dash, 1 digit, dash, 4 lowercase
alphanumerics, dash, 4 lowercase alphanumerics, hence is valid. -/
theorem claim6_witness :
    isValidTUID ("1609459200000-1-0-abcd-efgh".data) = true :=
  (claim6_valid_shape ("1609459200000-1-0-abcd-efgh".data)).2
    ⟨"1609459200000".data, "1".data, "0".data, "abcd".data, "efgh".data,
      by decide, by decide, by decide, by decide, by decide, by decide,
      by decide, by decide, by decide, by decide, by decide, by decide,
      by decide⟩
